import Mathlib

/-!
Verification development for the kvasir source-file parser and template
generator.  The definitions shallowly embed the two core pipelines of
`src/main.rs` and `src/parsers/mod.rs`:

* the parser dispatch pipeline (`list_files`, `parse_file`, the decoder
  catalog `parsers()`), with the external decoding libraries (serde and
  friends) as abstract parameters, and
* the template-output splitting and writing pipeline
  (`split_template_content`, `write_rendered_files`, and the surrounding
  glue of `main`).

Strings are processed through executable character-list functions that
mirror the Rust `str` operations used by the source (`split`, `lines`,
`trim`), so that every definition evaluates on concrete inputs.  Paths are
modelled by their component view, as `std::path::Path` exposes them on a
Unix target; the Windows-only differences (prefixes, `\r\n` line endings)
are outside the model, matching the non-Windows `LINE_ENDING` branch of
the source.
-/

deriving instance DecidableEq for Except

namespace Kvasir

/-- Whitespace as `char::is_whitespace` classifies the characters that occur
in rendered documents (space, tab, newline, carriage return). -/
def isWsp (c : Char) : Bool :=
  c == ' ' || c == '\t' || c == '\n' || c == '\r'

/-- Strip `pat` from the front of `l`, returning the remainder when `pat`
is a prefix. -/
def stripFront : List Char → List Char → Option (List Char)
  | [], l => some l
  | _ :: _, [] => none
  | p :: ps, c :: cs => if p = c then stripFront ps cs else none

/-- Worker for `splitChars`, fuelled so that the recursion is structural:
at each position either the separator matches (emit the accumulated piece
and restart after the separator) or one character is accumulated. -/
def splitGo (sep : List Char) : Nat → List Char → List Char → List (List Char)
  | _, [], acc => [acc.reverse]
  | 0, l, acc => [acc.reverse ++ l]
  | fuel + 1, c :: cs, acc =>
    match stripFront sep (c :: cs) with
    | some rest => acc.reverse :: splitGo sep fuel rest []
    | none => splitGo sep fuel cs (c :: acc)

/-- `str::split` with a non-empty separator (the delimiter option of kvasir
is a CLI string; the empty separator is not modelled). -/
def splitChars (sep s : List Char) : List (List Char) :=
  if sep = [] then [s] else splitGo sep (s.length + 1) s []

/-- `str::split` on strings. -/
def rustSplit (sep s : String) : List String :=
  (splitChars sep.data s.data).map String.mk

/-- `str::lines`: pieces between newlines; a final trailing newline yields
no extra line; a trailing carriage return is stripped from each line. -/
def rustLines (s : String) : List String :=
  let parts := splitChars ['\n'] s.data
  let parts := if parts.getLast? = some [] then parts.dropLast else parts
  parts.map (fun l => String.mk (if l.getLast? = some '\r' then l.dropLast else l))

/-- `str::trim`: drop whitespace from both ends. -/
def rustTrim (s : String) : String :=
  String.mk (((s.data.dropWhile isWsp).reverse.dropWhile isWsp).reverse)

/-- Join a list of strings with a separator (`[&str]::join`). -/
def joinWith (sep : String) : List String → String
  | [] => ""
  | [x] => x
  | x :: xs => x ++ sep ++ joinWith sep xs

/-- OS-specific line ending; the model targets the non-Windows branch of
the source (`LINE_ENDING` in `main.rs`). -/
def LINE_ENDING : String := "\n"

/-- A filesystem path as its component view: an is-absolute flag plus the
list of components.  Components may still contain `.` and `..`; `clean`
resolves them. -/
structure RPath where
  absolute : Bool
  comps : List String
deriving DecidableEq

/-- `Path::new` on a path string: a leading separator makes the path
absolute, separators are collapsed, empty components vanish.  (The
component iterator of `std::path` also drops interior `.` components; here
they are kept and resolved by `clean`, which every path of the splitter
passes through before being compared.) -/
def RPath.parse (s : String) : RPath :=
  { absolute := match s.data with
      | '/' :: _ => true
      | _ => false,
    comps := ((splitChars ['/'] s.data).filter (fun c => c ≠ [])).map String.mk }

/-- `Path::join`: appending an absolute path replaces the base entirely. -/
def RPath.join (base p : RPath) : RPath :=
  if p.absolute then p
  else { absolute := base.absolute, comps := base.comps ++ p.comps }

/-- One step of path cleaning over a reversed accumulator: `.` vanishes,
`..` pops a normal component, is dropped at an absolute root and is kept
at the front of a relative path. -/
def cleanStep (absolute : Bool) (acc : List String) (c : String) : List String :=
  if c = "." then acc
  else if c = ".." then
    match acc with
    | [] => if absolute then [] else [".."]
    | top :: rest => if top = ".." then ".." :: top :: rest else rest
  else c :: acc

/-- `PathClean::clean` from the `path-clean` crate: resolve `.`, `..` and
redundant separators. -/
def RPath.clean (p : RPath) : RPath :=
  { absolute := p.absolute, comps := (p.comps.foldl (cleanStep p.absolute) []).reverse }

/-- Component-wise ancestry test: `root` is an initial segment of `p`. -/
def compsLeadIn : List String → List String → Bool
  | [], _ => true
  | _ :: _, [] => false
  | a :: as, b :: bs => if a = b then compsLeadIn as bs else false

/-- `Path::starts_with`: the roots agree and the components of `root` are
an initial segment of the components of `p`. -/
def RPath.startsWith (p root : RPath) : Bool :=
  p.absolute == root.absolute && compsLeadIn root.comps p.comps

/-- `Path::parent`: strip the final component; `none` for a bare root or
the empty path. -/
def RPath.parent (p : RPath) : Option RPath :=
  match p.comps with
  | [] => none
  | _ :: _ => some { absolute := p.absolute, comps := p.comps.dropLast }

/-- `Path::extension` of a file name: the part after the last dot, absent
when there is no dot or the only dot leads a hidden file. -/
def fileExtension (name : String) : Option String :=
  match (splitChars ['.'] name.data).map String.mk with
  | [] => none
  | [_] => none
  | ["", _] => none
  | parts => some (parts.getLastD "")

/-- `Path::extension` through the final component ( `..` and `.` have no
file name, hence no extension). -/
def RPath.extension (p : RPath) : Option String :=
  match p.comps.getLast? with
  | none => none
  | some name => if name = ".." ∨ name = "." then none else fileExtension name

/-- `has_extension` from `parsers/mod.rs`: the path has an extension and it
is one of the listed ones. -/
def hasExtension (path : RPath) (exts : List String) : Bool :=
  match path.extension with
  | some e => decide (e ∈ exts)
  | none => false

/-! ## Output splitter and file writer (`main.rs`) -/

/-- The two `bail!` sites of `split_template_content`: a missing output
directory, and a destination that escapes the output root (the error names
the offending path and the root, as the formatted message does). -/
inductive SplitError
  | outputDirMissing
  | notChild (p : RPath) (root : RPath)
deriving DecidableEq

/-- The per-block step of `split_template_content` (main.rs lines 264-271):
a block with no lines is dropped; otherwise the first line, trimmed, is the
relative destination path, joined onto the output root and cleaned, and
the remaining lines joined with the platform line separator are the body. -/
def blockFun (outputDir : RPath) (f : String) : Option (RPath × String) :=
  match rustLines f with
  | [] => none
  | first :: remaining =>
    some ((outputDir.join (RPath.parse (rustTrim first))).clean,
          joinWith LINE_ENDING remaining)

/-- The entry a block with at least one line produces (the `some` payload
of `blockFun`; the fallback for a lineless block is never used under the
hypotheses it appears with). -/
def blockEntry (outputDir : RPath) (f : String) : RPath × String :=
  match rustLines f with
  | [] => (outputDir, "")
  | first :: remaining =>
    ((outputDir.join (RPath.parse (rustTrim first))).clean,
     joinWith LINE_ENDING remaining)

/-- The block scan of `split_template_content` (main.rs lines 261-274):
split the rendered contents on the delimiter and process every piece with
`blockFun`. -/
def splitBlocks (delimiter contents : String) (outputDir : RPath) :
    List (RPath × String) :=
  (rustSplit delimiter contents).filterMap (blockFun outputDir)

/-- `split_template_content`: the output directory must exist
(`outputDirIsDir` stands for the `output_dir.is_dir()` probe); the whole
block list is built, and the first destination that fails the
`starts_with` containment check against the output root fails the entire
operation. -/
def split_template_content (delimiter contents : String) (outputDir : RPath)
    (outputDirIsDir : Bool) : Except SplitError (List (RPath × String)) :=
  if outputDirIsDir = false then .error .outputDirMissing
  else
    let files := splitBlocks delimiter contents outputDir
    match files.find? (fun e => ! e.1.startsWith outputDir) with
    | some e => .error (.notChild e.1 outputDir)
    | none => .ok files

/-- The filesystem the writer sees: text contents by path. -/
def FS : Type := RPath → Option String

/-- Writing a file replaces the contents at exactly one path. -/
def FS.write (fs : FS) (p : RPath) (c : String) : FS :=
  fun q => if q = p then some c else fs q

/-- `Path::exists` against the modelled filesystem. -/
def FS.fileExists (fs : FS) (p : RPath) : Bool :=
  (fs p).isSome

/-- `write_rendered_files`: walk the entries in order.  An entry is written
when its destination is absent or overwriting is allowed; otherwise that
one file is skipped and a conflict is reported, and the walk continues.
The source unwraps `file.parent()` before creating directories, so an
entry whose destination has no parent panics the process: modelled as
`none`. -/
def write_rendered_files (entries : List (RPath × String))
    (allowOverwrite : Bool) (fs : FS) : Option (FS × List RPath) :=
  match entries with
  | [] => some (fs, [])
  | (file, content) :: rest =>
    if (fs.fileExists file && allowOverwrite) || ! fs.fileExists file then
      match file.parent with
      | none => none
      | some _ => write_rendered_files rest allowOverwrite (fs.write file content)
    else
      match write_rendered_files rest allowOverwrite fs with
      | none => none
      | some (fs2, conflicts) => some (fs2, file :: conflicts)

/-- The `--split-files` branch of the `document` command in `main`: on a
split error the error is reported and nothing is written; on success the
writer runs on the returned entries. -/
def documentSplitFiles (delimiter contents : String) (outputDir : RPath)
    (outputDirIsDir : Bool) (allowOverwrite : Bool) (fs : FS) :
    Option (FS × List RPath) × Option SplitError :=
  match split_template_content delimiter contents outputDir outputDirIsDir with
  | .ok entries => (write_rendered_files entries allowOverwrite fs, none)
  | .error e => (some (fs, []), some e)

/-- `render_template`: a render failure is logged and replaced by the
empty string (`unwrap_or_else` in the source); the caller continues. -/
def render_template (renderResult : Except String String) : String :=
  match renderResult with
  | .ok s => s
  | .error _ => ""

/-- The `document` command after template selection: render, then either
print the rendered text (first component) or split and write it. -/
def documentStage (renderResult : Except String String) (splitFiles : Bool)
    (delimiter : String) (outputDir : RPath) (outputDirIsDir : Bool)
    (allowOverwrite : Bool) (fs : FS) :
    Option String × (Option (FS × List RPath) × Option SplitError) :=
  let rendered := render_template renderResult
  if splitFiles then
    (none, documentSplitFiles delimiter rendered outputDir outputDirIsDir
      allowOverwrite fs)
  else
    (some rendered, (some (fs, []), none))

/-! ## Parser catalog and dispatch (`parsers/mod.rs`, `parse_file`) -/

/-- A JSON-shaped tree (`serde_json::Value`). -/
inductive Value
  | null
  | bool (b : Bool)
  | num (n : Int)
  | str (s : String)
  | arr (elems : List Value)
  | obj (fields : List (String × Value))

/-- The SQL dialect grammars of the `sqlparser` crate used by the SQL
decoder. -/
inductive SqlDialect
  | generic
  | postgres
  | mysql
  | sqlite
  | mssql
  | hive
deriving DecidableEq

/-- A decoder of the catalog: a stable name, the capability check, and the
parse operation.  `parse` receives the path, the lazily-read contents, and
— to model decoders that touch the filesystem directly, as the JSON one
does — the on-disk text together with a running count of filesystem reads,
returning the result and the updated count. -/
structure FileParser where
  name : String
  canParse : RPath → Except String String → Bool
  parse : RPath → Except String String → String → Nat →
    Except String Value × Nat

/-- The external decoding libraries the per-format decoders delegate to,
abstract parameters of the embedding (each decoder in the source is a
single library call). -/
structure ExtDecoders where
  jsonDec : String → Except String Value
  yamlDec : String → Except String Value
  propsDec : String → Except String Value
  openApiDec : String → Except String Value
  tomlDec : String → Except String Value
  iniDec : String → Except String Value
  xmlDec : String → Except String Value
  hoconDec : String → Except String Value
  parseSql : SqlDialect → String → Except String (List String)
  sqlToValue : List String → Value

/-- A parse operation that decodes the cached contents and performs no
filesystem access of its own (the shape of every decoder except JSON). -/
def parseFromContents (dec : String → Except String Value) :
    RPath → Except String String → String → Nat → Except String Value × Nat :=
  fun _ contents _ reads =>
    (match contents with
     | .ok c => dec c
     | .error e => .error e, reads)

/-- `JsonParser`: capability by extension; `parse` ignores the cached
contents and re-reads the file from disk (`fs::read_to_string(path)` in
the source), counted as one extra filesystem read. -/
def JsonParser (jsonDec : String → Except String Value) : FileParser :=
  { name := "json",
    canParse := fun path _ => hasExtension path ["json", "tfstate"],
    parse := fun _ _ disk reads => (jsonDec disk, reads + 1) }

/-- `YamlParser`. -/
def YamlParser (yamlDec : String → Except String Value) : FileParser :=
  { name := "yaml",
    canParse := fun path _ => hasExtension path ["yaml"],
    parse := parseFromContents yamlDec }

/-- `PropertiesParser`. -/
def PropertiesParser (propsDec : String → Except String Value) : FileParser :=
  { name := "java-properties",
    canParse := fun path _ => hasExtension path ["properties"],
    parse := parseFromContents propsDec }

/-- `OpenAPIParser`: claims both `.yaml` and `.json` files, but its `parse`
hands the contents to `serde_json::from_str::<OpenAPI>` alone — the
abstract `openApiDec` stands for that single JSON-syntax decode plus
schema binding; no YAML decoder is consulted. -/
def OpenAPIParser (openApiDec : String → Except String Value) : FileParser :=
  { name := "openapi-v3",
    canParse := fun path _ => hasExtension path ["yaml", "json"],
    parse := parseFromContents openApiDec }

/-- `TomlParser`. -/
def TomlParser (tomlDec : String → Except String Value) : FileParser :=
  { name := "toml",
    canParse := fun path _ => hasExtension path ["toml"],
    parse := parseFromContents tomlDec }

/-- `IniParser`. -/
def IniParser (iniDec : String → Except String Value) : FileParser :=
  { name := "ini",
    canParse := fun path _ => hasExtension path ["ini"],
    parse := parseFromContents iniDec }

/-- `XmlParser`. -/
def XmlParser (xmlDec : String → Except String Value) : FileParser :=
  { name := "xml",
    canParse := fun path _ => hasExtension path ["xml"],
    parse := parseFromContents xmlDec }

/-- `HoconParser`. -/
def HoconParser (hoconDec : String → Except String Value) : FileParser :=
  { name := "hocon",
    canParse := fun path _ => hasExtension path ["conf"],
    parse := parseFromContents hoconDec }

/-- The fixed, ordered dialect list tried by the SQL decoder
(`SqlParser::parse` in the source). -/
def sqlDialects : List SqlDialect :=
  [.generic, .postgres, .mysql, .sqlite, .mssql, .hive]

/-- The lazy `map(..).find(|p| p.is_ok())` of `SqlParser::parse`: try each
dialect in turn and stop at the first success; dialects after the first
success are never evaluated. -/
def tryDialects (f : SqlDialect → Except String (List String)) :
    List SqlDialect → Option (Except String (List String))
  | [] => none
  | d :: ds =>
    match f d with
    | .ok stmts => some (.ok stmts)
    | .error _ => tryDialects f ds

/-- The body of `SqlParser::parse`: a failed contents read is mapped to a
parser error for every dialect; the first dialect that parses wins; when
no dialect succeeds a single aggregated failure is produced. -/
def sqlParseImpl (parseSql : SqlDialect → String → Except String (List String))
    (sqlToValue : List String → Value) (contents : Except String String) :
    Except String Value :=
  let attempt := fun d =>
    match contents with
    | .error _ => Except.error "Could not read file contents."
    | .ok c => parseSql d c
  match tryDialects attempt sqlDialects with
  | some (.ok stmts) => .ok (sqlToValue stmts)
  | some (.error e) => .error e
  | none => .error "Could not parse with any SQL parser dialects"

/-- `SqlParser`. -/
def SqlParser (parseSql : SqlDialect → String → Except String (List String))
    (sqlToValue : List String → Value) : FileParser :=
  { name := "sql",
    canParse := fun path _ => hasExtension path ["sql"],
    parse := fun _ contents _ reads => (sqlParseImpl parseSql sqlToValue contents, reads) }

/-- `parsers()`: the fixed, ordered decoder catalog. -/
def parsers (ext : ExtDecoders) : List FileParser :=
  [ JsonParser ext.jsonDec,
    YamlParser ext.yamlDec,
    PropertiesParser ext.propsDec,
    OpenAPIParser ext.openApiDec,
    TomlParser ext.tomlDec,
    IniParser ext.iniDec,
    XmlParser ext.xmlDec,
    HoconParser ext.hoconDec,
    SqlParser ext.parseSql ext.sqlToValue ]

/-- A successful `(file, decoder)` parse. -/
structure ParseSuccess where
  path : RPath
  parser : String
  contents : Value

/-- A failed `(file, decoder)` parse; non-blocking. -/
structure ParseFailure where
  path : RPath
  parser : String
  error : String

/-- The once-cell of `parse_file`: the cached contents, if read, and the
number of filesystem reads performed so far. -/
structure CacheState where
  cache : Option String
  reads : Nat

/-- `get_contents`: return the cached text, reading from disk only when
the cell is still empty (the read is modelled as succeeding with the
on-disk text). -/
def getContents (disk : String) (st : CacheState) : String × CacheState :=
  match st.cache with
  | some c => (c, st)
  | none => (disk, ⟨some disk, st.reads + 1⟩)

/-- The capability filter of `parse_file`: `get_contents()` is an eager
argument, so it is evaluated for every parser before `can_parse` runs. -/
def filterPhase (f : RPath) (disk : String) :
    List FileParser → CacheState → List FileParser × CacheState
  | [], st => ([], st)
  | p :: ps, st =>
    let r := getContents disk st
    let rest := filterPhase f disk ps r.2
    if p.canParse f (.ok r.1) then (p :: rest.1, rest.2) else rest

/-- The parse step of `parse_file` over the qualifying parsers, again
passing `get_contents()` to each, partitioning into successes and
failures in catalog order. -/
def parsePhase (f : RPath) (disk : String) :
    List FileParser → CacheState →
    (List ParseSuccess × List ParseFailure) × CacheState
  | [], st => (([], []), st)
  | p :: ps, st =>
    let r := getContents disk st
    let pr := p.parse f (.ok r.1) disk r.2.reads
    let rest := parsePhase f disk ps ⟨r.2.cache, pr.2⟩
    match pr.1 with
    | .ok v => ((⟨f, p.name, v⟩ :: rest.1.1, rest.1.2), rest.2)
    | .error e => ((rest.1.1, ⟨f, p.name, e⟩ :: rest.1.2), rest.2)

/-- `parse_file`: filter the catalog by capability, then parse with each
qualifying decoder; the second component is the total number of
filesystem reads of the file performed during the call. -/
def parse_file (catalog : List FileParser) (f : RPath) (disk : String) :
    (List ParseSuccess × List ParseFailure) × Nat :=
  let q := filterPhase f disk catalog ⟨none, 0⟩
  let r := parsePhase f disk q.1 q.2
  (r.1, r.2.reads)

/-! ## File discovery (`list_files`) -/

/-- A malformed glob pattern (`glob::PatternError`). -/
structure PatternError where
  msg : String
deriving DecidableEq

/-- A per-path error during glob expansion (`glob::GlobError`), which
carries the path it refers to. -/
structure GlobItemError where
  path : RPath
deriving DecidableEq

/-- List concatenation of the images, `Iterator::flat_map`. -/
def flatMapList (f : α → List β) : List α → List β
  | [] => []
  | x :: xs => f x ++ flatMapList f xs

/-- `Itertools::unique_by`: keep the first occurrence of each key. -/
def uniqueByAux (key : α → β) [DecidableEq β] : List α → List β → List α
  | [], _ => []
  | x :: xs, seen =>
    if key x ∈ seen then uniqueByAux key xs seen
    else x :: uniqueByAux key xs (key x :: seen)

/-- `Itertools::partition_map` into the ok paths and the item errors,
preserving order on both sides. -/
def partitionGlobResults :
    List (Except GlobItemError RPath) → List RPath × List GlobItemError
  | [] => ([], [])
  | .ok p :: rest =>
    let r := partitionGlobResults rest
    (p :: r.1, r.2)
  | .error e :: rest =>
    let r := partitionGlobResults rest
    (r.1, e :: r.2)

/-- `list_files` over a glob oracle `G` (the filesystem behind
`glob::glob`): each pattern expands to either a pattern error or a list of
per-item results.  `flat_map` iterates over the `Result` of `glob::glob`,
so a malformed pattern contributes nothing at all; the items of the valid
patterns are deduplicated by path (an item error dedupes by the path it
carries) and partitioned into paths and errors. -/
def list_files
    (G : String → Except PatternError (List (Except GlobItemError RPath)))
    (globs : List String) : List RPath × List GlobItemError :=
  let items := flatMapList (fun g =>
    match G g with
    | .error _ => []
    | .ok rs => rs) globs
  let uniq := uniqueByAux (fun r =>
    match r with
    | .ok p => p
    | .error e => e.path) items []
  partitionGlobResults uniq

/-! ## Concrete fixtures used by witnesses and counterexamples -/

/-- The output root `/tmp/out`. -/
def rtOut : RPath := ⟨true, ["tmp", "out"]⟩

/-- The filesystem root `/`. -/
def rootOnly : RPath := ⟨true, []⟩

/-- An empty filesystem. -/
def fsEmpty : FS := fun _ => none

/-- A filesystem in which only the root path exists (the root directory of
a real filesystem always exists, so `Path::exists` answers true for it). -/
def fsRootDir : FS := fun p => if p = rootOnly then some "" else none

/-- Destination `/tmp/out/a.md`. -/
def pOutA : RPath := ⟨true, ["tmp", "out", "a.md"]⟩

/-- Destination `/tmp/out/b.md`. -/
def pOutB : RPath := ⟨true, ["tmp", "out", "b.md"]⟩

/-- A filesystem in which `/tmp/out/a.md` already exists. -/
def fsWithA : FS := fun p => if p = pOutA then some "old" else none

/-- The first line of a block. -/
def firstLine (b : String) : String := (rustLines b).headD ""

/-- A fixed SQL dialect oracle for which the generic dialect fails and
PostgreSQL succeeds. -/
def sqlPsFix : SqlDialect → String → Except String (List String) :=
  fun d _ =>
    match d with
    | .postgres => .ok ["CREATE TABLE t"]
    | _ => .error "syntax error"

/-- A SQL dialect oracle for which every dialect fails. -/
def sqlPsAllFail : SqlDialect → String → Except String (List String) :=
  fun _ _ => .error "syntax error"

/-- The path of a discovered glob item. -/
def pGood : RPath := ⟨false, ["good.json"]⟩

/-- A glob oracle: the pattern `[` is malformed, the pattern `good.json`
matches one file, anything else matches nothing. -/
def globOracleFix : String → Except PatternError (List (Except GlobItemError RPath)) :=
  fun g =>
    if g = "[" then .error ⟨"invalid pattern"⟩
    else if g = "good.json" then .ok [.ok pGood]
    else .ok []

/-- A YAML-syntax OpenAPI v3 document. -/
def yamlOpenApiDoc : String := "openapi: 3.0.3"

/-- The path `api.yaml`. -/
def apiYamlPath : RPath := RPath.parse "api.yaml"

/-- Modelled external collaborator `serde_json::from_str::<OpenAPI>`
composed with `serde_json::to_value`, on the inputs exercised here: no
JSON value begins with the bare identifier character `o`, so serde_json
rejects the YAML-syntax document with its usual syntax error; other inputs
are answered with a schema-bound value. -/
def serdeJsonOpenApiFix : String → Except String Value :=
  fun s =>
    match s.data with
    | 'o' :: _ => .error "expected value at line 1 column 1"
    | _ => .ok Value.null

/-! ## Helper lemmas -/

/-- A block with at least one line yields exactly its `blockEntry`. -/
theorem blockFun_eq_some (outputDir : RPath) (b : String)
    (h : rustLines b ≠ []) :
    blockFun outputDir b = some (blockEntry outputDir b) := by
  unfold blockFun blockEntry
  cases hl : rustLines b with
  | nil => exact absurd hl h
  | cons first remaining => rfl

/-- Over blocks that all have at least one line, the block scan is a map. -/
theorem filterMap_blockFun_eq_map (outputDir : RPath) :
    ∀ bs : List String, (∀ b ∈ bs, rustLines b ≠ []) →
      bs.filterMap (blockFun outputDir) = bs.map (blockEntry outputDir) := by
  intro bs
  induction bs with
  | nil => intro _; rfl
  | cons b rest ih =>
    intro h
    rw [List.filterMap_cons, blockFun_eq_some outputDir b (h b (by simp)),
      List.map_cons, ih (fun x hx => h x (by simp [hx]))]

/-- Splitting the empty string yields one empty piece, for any separator. -/
theorem rustSplit_empty (d : String) : rustSplit d "" = [""] := by
  unfold rustSplit splitChars
  by_cases h : d.data = [] <;> simp [h, splitGo]

/-- Splitting an empty rendered document produces no entries. -/
theorem split_template_content_empty (d : String) (outputDir : RPath) :
    split_template_content d "" outputDir true = .ok [] := by
  unfold split_template_content splitBlocks
  rw [rustSplit_empty]
  rfl

/-- With every destination parented, the writer completes without a panic. -/
theorem wrf_some (entries : List (RPath × String)) (allowOverwrite : Bool) :
    ∀ fs : FS, (∀ e ∈ entries, (Prod.fst e).parent ≠ none) →
      ∃ fs2 confl,
        write_rendered_files entries allowOverwrite fs = some (fs2, confl) := by
  induction entries with
  | nil => intro fs _; exact ⟨fs, [], rfl⟩
  | cons x rest ih =>
    intro fs h
    obtain ⟨file, content⟩ := x
    unfold write_rendered_files
    by_cases hg : ((fs.fileExists file && allowOverwrite) || ! fs.fileExists file) = true
    · rw [if_pos hg]
      cases hpar : file.parent with
      | none => exact absurd hpar (h (file, content) (by simp))
      | some q => exact ih (fs.write file content) (fun e he => h e (by simp [he]))
    · rw [if_neg hg]
      obtain ⟨fs3, cf, hr⟩ := ih fs (fun e he => h e (by simp [he]))
      rw [hr]
      exact ⟨fs3, file :: cf, rfl⟩

/-- With overwriting disabled, a path that already exists keeps its exact
contents through the whole write walk. -/
theorem wrf_preserve :
    ∀ (entries : List (RPath × String)) (fs fs2 : FS) (confl : List RPath)
      (p : RPath),
      write_rendered_files entries false fs = some (fs2, confl) →
      (fs p).isSome → fs2 p = fs p := by
  intro entries
  induction entries with
  | nil =>
    intro fs fs2 confl p h hp
    unfold write_rendered_files at h
    simp only [Option.some.injEq, Prod.mk.injEq] at h
    rw [← h.1]
  | cons x rest ih =>
    intro fs fs2 confl p h hp
    obtain ⟨file, content⟩ := x
    unfold write_rendered_files at h
    simp only [Bool.and_false, Bool.false_or] at h
    cases hex : fs.fileExists file with
    | true =>
      rw [hex] at h
      simp at h
      cases hr : write_rendered_files rest false fs with
      | none => rw [hr] at h; exact absurd h (by simp)
      | some pr =>
        obtain ⟨fs3, cf⟩ := pr
        rw [hr] at h
        simp only [Option.some.injEq, Prod.mk.injEq] at h
        rw [← h.1]
        exact ih fs fs3 cf p hr hp
    | false =>
      rw [hex] at h
      simp at h
      have hWriteP : (fs.write file content) p = fs p := by
        unfold FS.write
        have hne : p ≠ file := by
          intro hcontra
          rw [hcontra] at hp
          unfold FS.fileExists at hex
          rw [Option.isSome_iff_exists] at hp
          obtain ⟨v, hv⟩ := hp
          rw [hv] at hex
          simp at hex
        rw [if_neg hne]
      cases hpar : file.parent with
      | none => rw [hpar] at h; exact absurd h (by simp)
      | some q =>
        rw [hpar] at h
        have := ih (fs.write file content) fs2 confl p h (by rw [hWriteP]; exact hp)
        rw [this, hWriteP]

/-- With overwriting disabled, every entry whose destination exists when it
is processed is reported as a conflict. -/
theorem wrf_conflicts :
    ∀ (entries : List (RPath × String)) (fs fs2 : FS) (confl : List RPath),
      write_rendered_files entries false fs = some (fs2, confl) →
      ∀ e ∈ entries, (fs e.1).isSome → e.1 ∈ confl := by
  intro entries
  induction entries with
  | nil => intro fs fs2 confl _ e he; exact absurd he (by simp)
  | cons x rest ih =>
    intro fs fs2 confl h e he hsome
    obtain ⟨file, content⟩ := x
    unfold write_rendered_files at h
    simp only [Bool.and_false, Bool.false_or] at h
    cases hex : fs.fileExists file with
    | true =>
      rw [hex] at h
      simp at h
      cases hr : write_rendered_files rest false fs with
      | none => rw [hr] at h; exact absurd h (by simp)
      | some pr =>
        obtain ⟨fs3, cf⟩ := pr
        rw [hr] at h
        simp only [Option.some.injEq, Prod.mk.injEq] at h
        rw [← h.2]
        rcases List.mem_cons.mp he with he1 | he2
        · rw [he1]; exact List.mem_cons_self file cf
        · exact List.mem_cons_of_mem file (ih fs fs3 cf hr e he2 hsome)
    | false =>
      rw [hex] at h
      simp at h
      rcases List.mem_cons.mp he with he1 | he2
      · exfalso
        unfold FS.fileExists at hex
        rw [he1] at hsome
        simp only at hsome
        rw [hsome] at hex
        simp at hex
      · cases hpar : file.parent with
        | none => rw [hpar] at h; exact absurd h (by simp)
        | some q =>
          rw [hpar] at h
          refine ih (fs.write file content) fs2 confl h e he2 ?_
          unfold FS.write
          by_cases hpq : e.1 = file
          · rw [if_pos hpq]; simp
          · rw [if_neg hpq]; exact hsome

/-- With overwriting disabled, every entry's destination exists once the
walk finishes: it was either written or already present. -/
theorem wrf_all_exist :
    ∀ (entries : List (RPath × String)) (fs fs2 : FS) (confl : List RPath),
      write_rendered_files entries false fs = some (fs2, confl) →
      ∀ e ∈ entries, (fs2 e.1).isSome := by
  intro entries
  induction entries with
  | nil => intro fs fs2 confl _ e he; exact absurd he (by simp)
  | cons x rest ih =>
    intro fs fs2 confl h e he
    obtain ⟨file, content⟩ := x
    unfold write_rendered_files at h
    simp only [Bool.and_false, Bool.false_or] at h
    cases hex : fs.fileExists file with
    | true =>
      rw [hex] at h
      simp at h
      cases hr : write_rendered_files rest false fs with
      | none => rw [hr] at h; exact absurd h (by simp)
      | some pr =>
        obtain ⟨fs3, cf⟩ := pr
        rw [hr] at h
        simp only [Option.some.injEq, Prod.mk.injEq] at h
        rcases List.mem_cons.mp he with he1 | he2
        · have hs : (fs file).isSome := by
            unfold FS.fileExists at hex
            exact hex
          have := wrf_preserve rest fs fs3 cf file hr hs
          rw [← h.1, he1]
          simp only
          rw [this]
          exact hs
        · rw [← h.1]
          exact ih fs fs3 cf hr e he2
    | false =>
      rw [hex] at h
      simp at h
      cases hpar : file.parent with
      | none => rw [hpar] at h; exact absurd h (by simp)
      | some q =>
        rw [hpar] at h
        rcases List.mem_cons.mp he with he1 | he2
        · have hs : ((fs.write file content) file).isSome := by
            unfold FS.write
            rw [if_pos rfl]
            simp
          have := wrf_preserve rest (fs.write file content) fs2 confl file h hs
          rw [he1]
          simp only
          rw [this]
          exact hs
        · exact ih (fs.write file content) fs2 confl h e he2

/-! ## Claim theorems -/

/-- C1: if any block's destination path, after joining onto the output
root and cleaning, fails the containment check against the output root,
then `split_template_content` returns an error that names the offending
path and the root, returns no entries, and the `--split-files` stage
leaves the filesystem unchanged — `write_rendered_files` is never
reached. -/
theorem c1_escape_fails_atomically
    (delimiter contents : String) (outputDir : RPath) (allowOverwrite : Bool)
    (fs : FS)
    (hesc : ∃ e ∈ splitBlocks delimiter contents outputDir,
      e.1.startsWith outputDir = false) :
    ∃ p, p.startsWith outputDir = false ∧
      split_template_content delimiter contents outputDir true =
        .error (.notChild p outputDir) ∧
      documentSplitFiles delimiter contents outputDir true allowOverwrite fs =
        (some (fs, []), some (.notChild p outputDir)) := by
  have hsome : (List.find? (fun e => ! e.1.startsWith outputDir)
      (splitBlocks delimiter contents outputDir)).isSome := by
    rw [List.find?_isSome]
    obtain ⟨e, he, hf⟩ := hesc
    exact ⟨e, he, by simp [hf]⟩
  obtain ⟨e0, hfind⟩ := Option.isSome_iff_exists.mp hsome
  have hpe := List.find?_some hfind
  simp only [Bool.not_eq_true'] at hpe
  have hsplit : split_template_content delimiter contents outputDir true =
      .error (.notChild e0.1 outputDir) := by
    unfold split_template_content
    simp [hfind]
  refine ⟨e0.1, hpe, hsplit, ?_⟩
  unfold documentSplitFiles
  rw [hsplit]

/-- Witness for C1 at the path-escape document of spec scenario 5. -/
theorem c1_escape_fails_atomically_witness :
    ∃ p, p.startsWith rtOut = false ∧
      split_template_content "8<--" "8<-- ../../etc/passwd\nx" rtOut true =
        .error (.notChild p rtOut) ∧
      documentSplitFiles "8<--" "8<-- ../../etc/passwd\nx" rtOut true false
        fsEmpty = (some (fsEmpty, []), some (.notChild p rtOut)) :=
  c1_escape_fails_atomically "8<--" "8<-- ../../etc/passwd\nx" rtOut false
    fsEmpty (by decide)

/-- C2 counterexample: content before the first delimiter is not
discarded.  This document has exactly one delimiter-bounded block
(` a.md`/`hello`), yet splitting returns two entries: the text `junk`
before the first delimiter is treated as a block of its own and becomes
the destination `/tmp/out/junk`, so the result does not have length 1 as
the claim requires. -/
theorem c2_prefix_not_discarded_cex :
    split_template_content "8<--" "junk\n8<-- a.md\nhello" rtOut true =
      .ok [(⟨true, ["tmp", "out", "junk"]⟩, ""),
           (⟨true, ["tmp", "out", "a.md"]⟩, "hello")] ∧
    ([(⟨true, ["tmp", "out", "junk"]⟩, ""),
      (⟨true, ["tmp", "out", "a.md"]⟩, "hello")] : List (RPath × String)).length ≠ 1 := by
  constructor
  · decide
  · decide

/-- C2 (amended): when the content before the first delimiter is empty,
splitting a document with K blocks that each have at least one line (and a
non-empty trimmed first line) yields exactly K entries in block order;
each entry's path is the block's first line trimmed, joined onto the
output root and normalized, and its body is the remaining lines rejoined
with the platform line separator; if moreover every destination passes the
containment check, `split_template_content` succeeds with exactly that
list. -/
theorem c2_blocks_yield_entries
    (delimiter contents : String) (outputDir : RPath) (blocks : List String)
    (hsplit : rustSplit delimiter contents = "" :: blocks)
    (hlines : ∀ b ∈ blocks, rustLines b ≠ [])
    (_hfirst : ∀ b ∈ blocks, rustTrim (firstLine b) ≠ "") :
    splitBlocks delimiter contents outputDir =
      blocks.map (blockEntry outputDir) ∧
    (splitBlocks delimiter contents outputDir).length = blocks.length ∧
    ((∀ b ∈ blocks, (blockEntry outputDir b).1.startsWith outputDir = true) →
      split_template_content delimiter contents outputDir true =
        .ok (blocks.map (blockEntry outputDir))) := by
  have hmain : splitBlocks delimiter contents outputDir =
      blocks.map (blockEntry outputDir) := by
    unfold splitBlocks
    rw [hsplit, List.filterMap_cons]
    have h0 : blockFun outputDir "" = none := rfl
    rw [h0, filterMap_blockFun_eq_map outputDir blocks hlines]
  refine ⟨hmain, by rw [hmain, List.length_map], ?_⟩
  intro hcont
  have hnone : (blocks.map (blockEntry outputDir)).find?
      (fun e => ! e.1.startsWith outputDir) = none := by
    rw [List.find?_eq_none]
    intro a ha
    obtain ⟨b, hb, rfl⟩ := List.mem_map.mp ha
    simp [hcont b hb]
  unfold split_template_content
  simp [hmain, hnone]

/-- Witness for C2 at a two-block document that begins with the
delimiter. -/
theorem c2_blocks_yield_entries_witness :
    split_template_content "8<--" "8<-- a.md\nhello\n8<-- b.md\nworld" rtOut
      true =
      .ok ([" a.md\nhello\n", " b.md\nworld"].map (blockEntry rtOut)) :=
  (c2_blocks_yield_entries "8<--" "8<-- a.md\nhello\n8<-- b.md\nworld" rtOut
    [" a.md\nhello\n", " b.md\nworld"] (by decide) (by decide) (by decide)).2.2
    (by decide)

/-- C3 counterexample: a successful split may contain an entry whose
destination is the output root itself, which is not strictly below the
root — the containment check is `starts_with`, which a path equal to the
root passes. -/
theorem c3_root_itself_accepted_cex :
    split_template_content "8<--" "8<-- .\nbody" rtOut true =
      .ok [(rtOut, "body")] ∧
    ¬ (rtOut.startsWith rtOut = true ∧ rtOut ≠ rtOut) := by
  constructor
  · decide
  · simp

/-- C3 (amended): every entry of a successful `split_template_content`
result has a destination that passes `starts_with` against the output root
— it is the root itself or a descendant of it — where the destination was
cleaned (resolving `.`, `..` and redundant separators) before the check. -/
theorem c3_entries_contained
    (delimiter contents : String) (outputDir : RPath) (outputDirIsDir : Bool)
    (entries : List (RPath × String))
    (h : split_template_content delimiter contents outputDir outputDirIsDir =
      .ok entries) :
    ∀ e ∈ entries, e.1.startsWith outputDir = true := by
  unfold split_template_content at h
  by_cases hd : outputDirIsDir = false
  · rw [if_pos hd] at h
    exact absurd h (by simp)
  · rw [if_neg hd] at h
    cases hfind : List.find? (fun e => ! e.1.startsWith outputDir)
        (splitBlocks delimiter contents outputDir) with
    | some e0 =>
      simp only [hfind] at h
      exact absurd h (by simp)
    | none =>
      simp only [hfind, Except.ok.injEq] at h
      subst h
      intro e he
      have := List.find?_eq_none.mp hfind e he
      simpa using this

/-- Witness for C3 at spec scenario 4. -/
theorem c3_entries_contained_witness :
    RPath.startsWith ⟨true, ["tmp", "out", "out", "a.md"]⟩ rtOut = true :=
  c3_entries_contained "8<--" "8<-- out/a.md\nHello\n8<-- out/b.md\nWorld\n"
    rtOut true
    [(⟨true, ["tmp", "out", "out", "a.md"]⟩, "Hello"),
     (⟨true, ["tmp", "out", "out", "b.md"]⟩, "World")] (by decide)
    (⟨true, ["tmp", "out", "out", "a.md"]⟩, "Hello") (by decide)

/-- C6: with the overwrite flag unset the writer completes (given every
destination has a parent): every path that already existed keeps its exact
contents, every entry whose destination existed when it was processed is
reported as a conflict, and every entry's destination exists afterwards —
a conflict on one entry never prevents sibling entries from being
written. -/
theorem c6_conflicts_do_not_abort
    (entries : List (RPath × String)) (fs : FS)
    (hpar : ∀ e ∈ entries, (Prod.fst e).parent ≠ none) :
    ∃ fs2 confl,
      write_rendered_files entries false fs = some (fs2, confl) ∧
      (∀ p, (fs p).isSome → fs2 p = fs p) ∧
      (∀ e ∈ entries, (fs e.1).isSome → e.1 ∈ confl) ∧
      (∀ e ∈ entries, (fs2 e.1).isSome) := by
  obtain ⟨fs2, confl, hw⟩ := wrf_some entries false fs hpar
  exact ⟨fs2, confl, hw,
    fun p hp => wrf_preserve entries fs fs2 confl p hw hp,
    fun e he hs => wrf_conflicts entries fs fs2 confl hw e he hs,
    fun e he => wrf_all_exist entries fs fs2 confl hw e he⟩

/-- Witness for C6: `/tmp/out/a.md` pre-exists, `/tmp/out/b.md` does not. -/
theorem c6_conflicts_do_not_abort_witness :
    ∃ fs2 confl,
      write_rendered_files [(pOutA, "new"), (pOutB, "world")] false fsWithA =
        some (fs2, confl) ∧
      (∀ p, (fsWithA p).isSome → fs2 p = fsWithA p) ∧
      (∀ e ∈ [(pOutA, "new"), (pOutB, "world")],
        (fsWithA e.1).isSome → e.1 ∈ confl) ∧
      (∀ e ∈ [(pOutA, "new"), (pOutB, "world")], (fs2 e.1).isSome) :=
  c6_conflicts_do_not_abort [(pOutA, "new"), (pOutB, "world")] fsWithA
    (by decide)

/-- C7 counterexample: a failing render is not fatal.  The `document`
invocation continues past the failure with the empty string as the
rendered document and, in print mode, still emits output (the empty
rendered text), contradicting "aborts before any output is produced". -/
theorem c7_render_failure_not_fatal_cex :
    documentStage (.error "template not found") false "8<--" rtOut true false
      fsEmpty = (some "", (some (fsEmpty, []), none)) ∧
    (some "" : Option String) ≠ none := by
  constructor
  · rfl
  · simp

/-- C7 (amended): when rendering fails the failure is logged and the
rendered document is replaced by the empty string; the invocation
continues: in print mode the empty document is printed, and in split mode
splitting the empty document yields no entries, so no files are written
and the filesystem is unchanged. -/
theorem c7_render_failure_empty_render
    (err delimiter : String) (outputDir : RPath) (allowOverwrite : Bool)
    (fs : FS) :
    render_template (.error err) = "" ∧
    documentStage (.error err) false delimiter outputDir true allowOverwrite
      fs = (some "", (some (fs, []), none)) ∧
    documentStage (.error err) true delimiter outputDir true allowOverwrite
      fs = (none, (some (fs, []), none)) := by
  refine ⟨rfl, rfl, ?_⟩
  unfold documentStage documentSplitFiles
  simp [split_template_content_empty, write_rendered_files, render_template]

/-- C10: the writer unconditionally unwraps `file.parent()`.  A block whose
trimmed first line is `.` with the filesystem root as output root produces
the accepted entry `/` (the root passes its own containment check), and
writing it panics — the root exists, so with overwrite allowed the write
branch is taken and `parent()` is `None`. -/
theorem c10_writer_panics_on_parentless_path :
    split_template_content "8<--" "8<-- .\nbody" rootOnly true =
      .ok [(rootOnly, "body")] ∧
    write_rendered_files [(rootOnly, "body")] true fsRootDir = none := by
  constructor
  · decide
  · rfl

/-- C4: for a `.json` file the filesystem is read twice, not at most once:
the once-cell read happens while the capability filter runs (its argument
`get_contents()` is evaluated for every decoder), and `JsonParser::parse`
then ignores the cached contents and calls `fs::read_to_string` again.
This holds for every choice of external decoding libraries, contradicting
the claim (and the doc comment of `parse_file`, which promises the
contents "are never read more than once"). -/
theorem c4_json_file_read_twice (ext : ExtDecoders) (disk : String) :
    (parse_file (parsers ext) (RPath.parse "a.json") disk).2 = 2 ∧
    ¬ (parse_file (parsers ext) (RPath.parse "a.json") disk).2 ≤ 1 := by
  have h2 : (parse_file (parsers ext) (RPath.parse "a.json") disk).2 = 2 := by
    have hfilter : filterPhase (RPath.parse "a.json") disk (parsers ext)
        ⟨none, 0⟩ =
        ([JsonParser ext.jsonDec, OpenAPIParser ext.openApiDec],
         ⟨some disk, 1⟩) := rfl
    simp only [parse_file]
    rw [hfilter]
    simp only [parsePhase, getContents, JsonParser, OpenAPIParser,
      parseFromContents]
    cases ext.jsonDec disk <;> cases ext.openApiDec disk <;> rfl
  refine ⟨h2, ?_⟩
  rw [h2]
  decide

/-- The lazy dialect walk returns the first success when every earlier
dialect fails. -/
theorem tryDialects_found (f : SqlDialect → Except String (List String)) :
    ∀ (l : List SqlDialect) (i : Nat) (stmts : List String),
      i < l.length →
      (∀ j, j < i → ∃ e, f (l.getD j .generic) = .error e) →
      f (l.getD i .generic) = .ok stmts →
      tryDialects f l = some (.ok stmts) := by
  intro l
  induction l with
  | nil => intro i stmts hi; exact absurd hi (by simp)
  | cons d ds ih =>
    intro i stmts hi hfail hok
    cases i with
    | zero =>
      have hd : (d :: ds).getD 0 .generic = d := rfl
      rw [hd] at hok
      unfold tryDialects
      rw [hok]
    | succ n =>
      obtain ⟨e, he⟩ := hfail 0 (Nat.succ_pos n)
      have hd : (d :: ds).getD 0 .generic = d := rfl
      rw [hd] at he
      unfold tryDialects
      rw [he]
      exact ih n stmts (by simpa using hi)
        (fun j hj => by simpa using hfail (j + 1) (by omega))
        (by simpa using hok)

/-- The lazy dialect walk returns nothing when every dialect fails. -/
theorem tryDialects_all_fail (f : SqlDialect → Except String (List String)) :
    ∀ l : List SqlDialect, (∀ d ∈ l, ∃ e, f d = .error e) →
      tryDialects f l = none := by
  intro l
  induction l with
  | nil => intro _; rfl
  | cons d ds ih =>
    intro h
    obtain ⟨e, he⟩ := h d (by simp)
    unfold tryDialects
    rw [he]
    exact ih (fun x hx => h x (by simp [hx]))

/-- On successfully read contents, the SQL decoder is the dialect walk
followed by the three-way outcome match (definitional reshaping). -/
theorem sqlParseImpl_ok_contents
    (ps : SqlDialect → String → Except String (List String))
    (tv : List String → Value) (c : String) :
    sqlParseImpl ps tv (.ok c) =
      match tryDialects (fun d => ps d c) sqlDialects with
      | some (.ok stmts) => .ok (tv stmts)
      | some (.error e) => .error e
      | none => .error "Could not parse with any SQL parser dialects" := rfl

/-- C5: the SQL decoder tries the dialects in the fixed order generic,
PostgreSQL, MySQL, SQLite, MS-SQL, Hive (the list `sqlDialects`) against
the same contents; if the dialects before position `i` fail and dialect
`i` succeeds, the decoded value of dialect `i` is returned, and the result
does not depend on the behaviour of any later dialect; if every dialect
fails, the single aggregated failure is returned. -/
theorem c5_sql_dialect_order
    (ps : SqlDialect → String → Except String (List String))
    (tv : List String → Value) (c : String) :
    (∀ i stmts, i < sqlDialects.length →
      (∀ j, j < i → ∃ e, ps (sqlDialects.getD j .generic) c = .error e) →
      ps (sqlDialects.getD i .generic) c = .ok stmts →
      sqlParseImpl ps tv (.ok c) = .ok (tv stmts) ∧
      (∀ ps2 : SqlDialect → String → Except String (List String),
        (∀ j, j ≤ i → ps2 (sqlDialects.getD j .generic) c =
          ps (sqlDialects.getD j .generic) c) →
        sqlParseImpl ps2 tv (.ok c) = .ok (tv stmts))) ∧
    ((∀ d ∈ sqlDialects, ∃ e, ps d c = .error e) →
      sqlParseImpl ps tv (.ok c) =
        .error "Could not parse with any SQL parser dialects") := by
  constructor
  · intro i stmts hi hfail hok
    constructor
    · have htry : tryDialects (fun d => ps d c) sqlDialects =
          some (.ok stmts) :=
        tryDialects_found (fun d => ps d c) sqlDialects i stmts hi hfail hok
      rw [sqlParseImpl_ok_contents, htry]
    · intro ps2 hagree
      have hfail2 : ∀ j, j < i →
          ∃ e, ps2 (sqlDialects.getD j .generic) c = .error e := by
        intro j hj
        rw [hagree j (Nat.le_of_lt hj)]
        exact hfail j hj
      have hok2 : ps2 (sqlDialects.getD i .generic) c = .ok stmts := by
        rw [hagree i (Nat.le_refl i)]
        exact hok
      have htry : tryDialects (fun d => ps2 d c) sqlDialects =
          some (.ok stmts) :=
        tryDialects_found (fun d => ps2 d c) sqlDialects i stmts hi hfail2 hok2
      rw [sqlParseImpl_ok_contents, htry]
  · intro hall
    have htry : tryDialects (fun d => ps d c) sqlDialects = none :=
      tryDialects_all_fail (fun d => ps d c) sqlDialects hall
    rw [sqlParseImpl_ok_contents, htry]

/-- Witness for C5: the generic dialect fails and PostgreSQL (position 1)
succeeds for `sqlPsFix`; every dialect fails for `sqlPsAllFail`. -/
theorem c5_sql_dialect_order_witness :
    sqlParseImpl sqlPsFix (fun _ => Value.null) (.ok "CREATE TABLE t") =
      .ok Value.null ∧
    sqlParseImpl sqlPsAllFail (fun _ => Value.null) (.ok "CREATE TABLE t") =
      .error "Could not parse with any SQL parser dialects" := by
  constructor
  · exact ((c5_sql_dialect_order sqlPsFix (fun _ => Value.null)
      "CREATE TABLE t").1 1 ["CREATE TABLE t"] (by decide)
      (fun j hj => by
        have hj0 : j = 0 := by omega
        subst hj0
        exact ⟨"syntax error", rfl⟩)
      rfl).1
  · exact (c5_sql_dialect_order sqlPsAllFail (fun _ => Value.null)
      "CREATE TABLE t").2 (fun d _ => ⟨"syntax error", rfl⟩)

/-- C8 counterexample: a malformed glob pattern is not recorded in the
returned error list — `flat_map` over the `Result` of `glob::glob` drops
the `Err` silently.  The pattern `[` is malformed under `globOracleFix`,
yet `list_files` returns an empty error list (while the later pattern is
still expanded). -/
theorem c8_malformed_pattern_silently_skipped_cex :
    globOracleFix "[" = .error ⟨"invalid pattern"⟩ ∧
    list_files globOracleFix ["[", "good.json"] = ([pGood], []) := by
  constructor
  · decide
  · decide

/-- `flatMapList` distributes over append. -/
theorem flatMapList_append (f : α → List β) (l1 l2 : List α) :
    flatMapList f (l1 ++ l2) = flatMapList f l1 ++ flatMapList f l2 := by
  induction l1 with
  | nil => rfl
  | cons x xs ih => simp [flatMapList, ih]

/-- C8 (amended): a malformed glob pattern is skipped silently — it
contributes neither paths nor a recorded error — and does not abort
discovery: the result is exactly the result of discovery without that
pattern, so all remaining patterns are still expanded.  (Per-path I/O
errors of well-formed patterns, by contrast, are recorded in the error
list.) -/
theorem c8_malformed_pattern_skipped
    (G : String → Except PatternError (List (Except GlobItemError RPath)))
    (xs ys : List String) (b : String) (pe : PatternError)
    (hbad : G b = .error pe) :
    list_files G (xs ++ b :: ys) = list_files G (xs ++ ys) := by
  unfold list_files
  have hitems : flatMapList (fun g =>
      match G g with
      | .error _ => []
      | .ok rs => rs) (xs ++ b :: ys) =
      flatMapList (fun g =>
        match G g with
        | .error _ => []
        | .ok rs => rs) (xs ++ ys) := by
    rw [flatMapList_append, flatMapList_append]
    congr 1
    show flatMapList _ (b :: ys) = flatMapList _ ys
    simp [flatMapList, hbad]
  rw [hitems]

/-- Witness for C8: dropping the malformed pattern `[` leaves discovery
unchanged. -/
theorem c8_malformed_pattern_skipped_witness :
    globOracleFix "[" = .error ⟨"invalid pattern"⟩ ∧
    list_files globOracleFix ([] ++ "[" :: ["good.json"]) =
      list_files globOracleFix ([] ++ ["good.json"]) :=
  ⟨by decide, c8_malformed_pattern_skipped globOracleFix [] ["good.json"] "["
    ⟨"invalid pattern"⟩ (by decide)⟩

/-- C9: the OpenAPI decoder claims `.yaml` files but decodes with
`serde_json` alone, so a YAML-syntax OpenAPI v3 document is always
rejected: `can_parse` answers true for `api.yaml`, and `parse` hands the
contents to the JSON decoder, which fails with a syntax error — the claim
that YAML-syntax documents parse successfully fails on this input. -/
theorem c9_openapi_yaml_rejected :
    (OpenAPIParser serdeJsonOpenApiFix).canParse apiYamlPath
      (.ok yamlOpenApiDoc) = true ∧
    (OpenAPIParser serdeJsonOpenApiFix).parse apiYamlPath
      (.ok yamlOpenApiDoc) yamlOpenApiDoc 0 =
      (.error "expected value at line 1 column 1", 0) := by
  constructor
  · decide
  · rfl

end Kvasir
